import Mathlib

/-
Verification of the entropy-production, debiasing and metrics pipeline of the
quantum-random-generator dashboard backend.  The Python sources embedded here are
src/backend/src/generators/fpga_simulator.py, src/backend/src/generators/quantum_rng.py
and src/backend/src/utils/performance_monitor.py.  Bytes are modelled as natural
numbers (the uint8 range is irrelevant to the properties below), byte strings as
lists, and the float statistics that the claims do not touch are abstracted where
stated in the doc comments.
-/

namespace QRNG

/-- Bit expansion of one byte, most-significant bit first, exactly as np.unpackbits
lists the bits of a uint8 value (fpga_simulator.py line 111). -/
def natToBits (b : Nat) : List Nat :=
  [b / 128 % 2, b / 64 % 2, b / 32 % 2, b / 16 % 2, b / 8 % 2, b / 4 % 2, b / 2 % 2, b % 2]

/-- Bit expansion of a byte string: np.unpackbits(np.frombuffer(data, dtype=np.uint8)). -/
def unpackbits (data : List Nat) : List Nat :=
  List.flatten (data.map natToBits)

/-- Pair-scan loop of _apply_debiasing (fpga_simulator.py lines 113-123): walk the
bit list in non-overlapping pairs from the start; the pair (0, 1) emits a 0 bit,
the pair (1, 0) emits a 1 bit, equal pairs emit nothing; a final unpaired bit is
never examined because the loop runs while i < len(bits) - 1. -/
def vnScan : List Nat → List Nat
  | b0 :: b1 :: rest =>
    if b0 = 0 ∧ b1 = 1 then 0 :: vnScan rest
    else if b0 = 1 ∧ b1 = 0 then 1 :: vnScan rest
    else vnScan rest
  | _ => []

/-- Padding loop of _apply_debiasing (lines 125-127): while len % 8 != 0 append a 0
bit; appending (8 - len % 8) % 8 zeros reaches the next multiple of 8. -/
def padTo8 (l : List Nat) : List Nat :=
  l ++ List.replicate ((8 - l.length % 8) % 8) 0

/-- Value of one byte assembled from up to 8 bits, high bit first; a short group is
padded with trailing zero bits, as np.packbits does. -/
def bitsToByte (l : List Nat) : Nat :=
  (l ++ List.replicate (8 - l.length) 0).foldl (fun acc b => acc * 2 + b) 0

/-- np.packbits with its default big bit order (line 133): every group of 8 bits
becomes one byte; an incomplete final group is padded with zero bits on the right. -/
def packbits : List Nat → List Nat
  | [] => []
  | b0 :: b1 :: b2 :: b3 :: b4 :: b5 :: b6 :: b7 :: rest =>
    bitsToByte [b0, b1, b2, b3, b4, b5, b6, b7] :: packbits rest
  | l => [bitsToByte l]

/-- Von Neumann debiasing, _apply_debiasing (fpga_simulator.py lines 105-138): scan
the unpacked bits pairwise, pad the emitted bits to a byte boundary, and pack them;
if no bit was emitted fall back to the first half of the input.  The numpy calls in
the try block are total in this embedding, so the except branch (which returns data
unchanged, line 137) is unreachable here. -/
def _apply_debiasing (data : List Nat) : List Nat :=
  let bits := unpackbits data
  let debiased_bits := padTo8 (vnScan bits)
  if debiased_bits = [] then data.take (data.length / 2) else packbits debiased_bits

theorem unpackbits_length : ∀ data : List Nat, (unpackbits data).length = 8 * data.length
  | [] => rfl
  | b :: rest => by
    have ih := unpackbits_length rest
    simp only [unpackbits, List.map_cons, List.flatten_cons, List.length_append,
      List.length_cons] at ih ⊢
    simp [natToBits] at ih ⊢
    omega

theorem vnScan_length_le : ∀ l : List Nat, 2 * (vnScan l).length ≤ l.length
  | [] => by simp [vnScan]
  | [a] => by simp [vnScan]
  | a :: b :: rest => by
    have ih := vnScan_length_le rest
    by_cases h1 : a = 0 ∧ b = 1
    · simp [vnScan, h1]; omega
    · by_cases h2 : a = 1 ∧ b = 0
      · simp [vnScan, h1, h2]; omega
      · simp [vnScan, h1, h2]; omega

theorem packbits_length : ∀ l : List Nat, (packbits l).length = (l.length + 7) / 8
  | [] => rfl
  | [a] => by simp [packbits]
  | [a, b] => by simp [packbits]
  | [a, b, c] => by simp [packbits]
  | [a, b, c, d] => by simp [packbits]
  | [a, b, c, d, e] => by simp [packbits]
  | [a, b, c, d, e, f] => by simp [packbits]
  | [a, b, c, d, e, f, g] => by simp [packbits]
  | b0 :: b1 :: b2 :: b3 :: b4 :: b5 :: b6 :: b7 :: rest => by
    have ih := packbits_length rest
    simp only [packbits, List.length_cons] at ih ⊢
    omega

/-- Non-expansiveness of the debiaser, stated as a helper so that other developments
can reuse it. -/
theorem apply_debiasing_length_le (data : List Nat) :
    (_apply_debiasing data).length ≤ data.length := by
  simp only [_apply_debiasing]
  split
  · simp only [List.length_take]
    omega
  · have h1 := vnScan_length_le (unpackbits data)
    have h2 := unpackbits_length data
    rw [packbits_length]
    simp only [padTo8, List.length_append, List.length_replicate]
    omega

/-- Output of one bit pair under the spec wording of the transform: (0, 1) emits a
0 bit, (1, 0) emits a 1 bit, equal pairs emit nothing. -/
def vnPairOut (a b : Nat) : Option Nat :=
  if a = 0 ∧ b = 1 then some 0 else if a = 1 ∧ b = 0 then some 1 else none

/-- Non-overlapping consecutive pairs from the start of a list; a trailing unpaired
element is dropped. -/
def toPairs : List Nat → List (Nat × Nat)
  | a :: b :: rest => (a, b) :: toPairs rest
  | _ => []

/-- Reference von Neumann transform, phrased from the spec (section 4.2): unpack the
bytes most-significant-bit first, map the non-overlapping bit pairs through the pair
rule, drop a trailing unpaired bit, right-pad the emitted bits with zeros to the
next multiple of 8, and repack into bytes. -/
def vonNeumannRef (data : List Nat) : List Nat :=
  let out := (toPairs (unpackbits data)).filterMap (fun p => vnPairOut p.1 p.2)
  packbits (out ++ List.replicate ((8 - out.length % 8) % 8) 0)

theorem vnScan_eq_pairs :
    ∀ l : List Nat, vnScan l = (toPairs l).filterMap (fun p => vnPairOut p.1 p.2)
  | [] => rfl
  | [a] => rfl
  | a :: b :: rest => by
    have ih := vnScan_eq_pairs rest
    by_cases h1 : a = 0 ∧ b = 1
    · simp [vnScan, toPairs, vnPairOut, h1, ih]
    · by_cases h2 : a = 1 ∧ b = 0
      · simp [vnScan, toPairs, vnPairOut, h1, h2, ih]
      · simp [vnScan, toPairs, vnPairOut, h1, h2, ih]

/-- C4: on every input byte string on which the pair scan emits at least one bit,
_apply_debiasing computes exactly the reference von Neumann transform of the spec:
unpack most-significant-bit first, map non-overlapping pairs ((0,1) to a 0 bit,
(1,0) to a 1 bit, equal pairs to nothing), drop a trailing unpaired bit, right-pad
the emitted bits with zeros to a multiple of 8, and repack into bytes. -/
theorem apply_debiasing_eq_vonNeumannRef (data : List Nat)
    (h : vnScan (unpackbits data) ≠ []) :
    _apply_debiasing data = vonNeumannRef data := by
  have hne : padTo8 (vnScan (unpackbits data)) ≠ [] := by
    simp only [padTo8, ne_eq, List.append_eq_nil]
    intro hcon
    exact h hcon.1
  simp only [_apply_debiasing, vonNeumannRef, ← vnScan_eq_pairs]
  rw [if_neg hne]
  simp only [padTo8]

theorem apply_debiasing_eq_vonNeumannRef_witness :
    vnScan (QRNG.unpackbits [85]) ≠ [] ∧ _apply_debiasing [85] = vonNeumannRef [85] :=
  ⟨by decide, apply_debiasing_eq_vonNeumannRef [85] (by decide)⟩

/-- C5: debiasing is never expansive — the byte string returned by _apply_debiasing
is never longer than its input, on the packing path as well as on the degeneracy
fallback; the except fallback (line 137) returns the input itself, so it preserves
the length. -/
theorem apply_debiasing_nonexpansive (data : List Nat) :
    (_apply_debiasing data).length ≤ data.length :=
  apply_debiasing_length_le data

/-- C6: whenever the pair scan emits no bit at all, _apply_debiasing returns exactly
the first floor(len/2) bytes of its input, unchanged. -/
theorem apply_debiasing_degenerate (data : List Nat)
    (h : vnScan (unpackbits data) = []) :
    _apply_debiasing data = data.take (data.length / 2) := by
  simp [_apply_debiasing, padTo8, h]

theorem apply_debiasing_degenerate_witness :
    vnScan (QRNG.unpackbits [255, 15]) = [] ∧
      _apply_debiasing [255, 15] = List.take (List.length [255, 15] / 2) [255, 15] :=
  ⟨by decide, apply_debiasing_degenerate [255, 15] (by decide)⟩

/-- Quantum noise synthesis, _generate_quantum_noise (fpga_simulator.py lines 69-103):
size cryptographically strong bytes are perturbed elementwise by thermal, shot and
interference terms, clipped to 0..255 and quantized — every stage maps a length-size
array to a length-size array, so the byte string handed to the debiaser has exactly
size entries.  The perturbed byte values themselves are float-dependent and are
abstracted here as the argument noisy (the caller supplies size bytes); the function
then returns their debiased form.  The except branch (line 102), which returns size
fresh bytes instead, is modelled separately where needed. -/
def _generate_quantum_noise (noisy : List Nat) : List Nat :=
  _apply_debiasing noisy

/-- External generate operation, generate_random_bytes (fpga_simulator.py lines
140-184): under the buffer lock, if the buffer holds at least size bytes the first
size bytes are removed and returned; otherwise the on-demand path returns the
debiased form of size freshly perturbed bytes (noisy) and does not touch the buffer.
The returned pair is (result, buffer afterwards). -/
def generate_random_bytes (buf : List Nat) (size : Nat) (noisy : List Nat) :
    List Nat × List Nat :=
  if size ≤ buf.length then (buf.take size, buf.drop size)
  else (_generate_quantum_noise noisy, buf)

/-- C1 fails on the code: with an empty buffer and size = 2 the on-demand path feeds
the 2 perturbed bytes (here 0x55 0x55) through the debiaser, which emits 8 bits and
packs them into a single byte — the call returns 1 byte, not the requested 2.  The
docstring of generate_random_bytes and the contract take(size) -> exactly size bytes
promise exactly size bytes, so the on-demand path is a slip in the code. -/
theorem generate_random_bytes_size_bug :
    (generate_random_bytes [] 2 [85, 85]).1.length = 1 ∧
      (generate_random_bytes [] 2 [85, 85]).1.length ≠ 2 := by
  constructor
  · decide
  · decide

/-- C8: a generate_random_bytes call that cannot be served from the buffer leaves
the buffer exactly as it was — the on-demand fallback synthesizes the result without
removing anything from the buffer. -/
theorem generate_random_bytes_frame (buf : List Nat) (size : Nat) (noisy : List Nat)
    (h : buf.length < size) :
    (generate_random_bytes buf size noisy).2 = buf := by
  simp only [generate_random_bytes]
  rw [if_neg (by omega)]

theorem generate_random_bytes_frame_witness :
    List.length [7, 9] < 5 ∧ (generate_random_bytes [7, 9] 5 [0, 0, 0, 0, 0]).2 = [7, 9] :=
  ⟨by decide, generate_random_bytes_frame [7, 9] 5 [0, 0, 0, 0, 0] (by decide)⟩

/-- Capacity of the entropy buffer, self.buffer_size = 1024 * 1024 (fpga_simulator.py
line 22). -/
def buffer_size : Nat := 1024 * 1024

/-- One atomic transition of the entropy buffer under its lock.  fill and fillErr are
one iteration of buffer_worker (lines 49-63): when the fill level is below capacity
the worker appends _generate_quantum_noise(1024) — the debiased form of 1024
perturbed bytes, or 1024 raw bytes when the noise pipeline hit its exception branch
(line 103); fillFull is a worker iteration that finds the buffer at or above
capacity and appends nothing.  takeHit and takeMiss are the two paths of
generate_random_bytes (lines 153-160): remove the first n bytes, or leave the
buffer untouched when it holds fewer than n bytes. -/
inductive BufStep : List Nat → List Nat → Prop
  | fill (b noisy : List Nat) (h : b.length < buffer_size) (hn : noisy.length = 1024) :
      BufStep b (b ++ _generate_quantum_noise noisy)
  | fillErr (b chunk : List Nat) (h : b.length < buffer_size) (hc : chunk.length = 1024) :
      BufStep b (b ++ chunk)
  | fillFull (b : List Nat) (h : ¬ b.length < buffer_size) : BufStep b b
  | takeHit (b : List Nat) (n : Nat) (h : n ≤ b.length) : BufStep b (b.drop n)
  | takeMiss (b : List Nat) (n : Nat) (h : b.length < n) : BufStep b b

theorem vnScan_unpack_biased : ∀ k : Nat,
    vnScan (unpackbits (List.replicate k 85)) = List.replicate (4 * k) 0
  | 0 => rfl
  | k + 1 => by
    have ih := vnScan_unpack_biased k
    have h2 : unpackbits (List.replicate (k + 1) 85)
        = 0 :: 1 :: 0 :: 1 :: 0 :: 1 :: 0 :: 1 :: unpackbits (List.replicate k 85) := by
      simp [unpackbits, List.replicate_succ, natToBits]
    rw [h2]
    have h3 : vnScan (0 :: 1 :: 0 :: 1 :: 0 :: 1 :: 0 :: 1 ::
          unpackbits (List.replicate k 85))
        = 0 :: 0 :: 0 :: 0 :: vnScan (unpackbits (List.replicate k 85)) := by
      simp [vnScan]
    rw [h3, ih]
    have h4 : 4 * (k + 1) = 4 * k + 1 + 1 + 1 + 1 := by ring
    rw [h4]
    simp [List.replicate_succ]

theorem padTo8_of_mod8 (l : List Nat) (h : l.length % 8 = 0) : padTo8 l = l := by
  simp [padTo8, h]

theorem packbits_replicate_zero :
    ∀ m : Nat, packbits (List.replicate (8 * m) 0) = List.replicate m 0
  | 0 => rfl
  | m + 1 => by
    have ih := packbits_replicate_zero m
    have h8 : 8 * (m + 1) = 8 * m + 1 + 1 + 1 + 1 + 1 + 1 + 1 + 1 := by ring
    rw [h8]
    simp only [List.replicate_succ]
    simp [packbits, bitsToByte, ih]

/-- A worker fill whose 1024 perturbed bytes all come out as 0x55 appends exactly 512
zero bytes: every bit pair is (0, 1), so 4096 zero bits are emitted and packed. -/
theorem quantum_noise_biased_chunk :
    _generate_quantum_noise (List.replicate 1024 85) = List.replicate 512 0 := by
  have h1 := vnScan_unpack_biased 1024
  simp only [_generate_quantum_noise, _apply_debiasing, h1]
  rw [padTo8_of_mod8 _ (by simp only [List.length_replicate])]
  rw [if_neg (by simp only [ne_eq, List.replicate_eq_nil_iff]; omega)]
  have h2 : (4 : Nat) * 1024 = 8 * 512 := by norm_num
  rw [h2, packbits_replicate_zero]

theorem replicate_drop {α : Type} (a : α) :
    ∀ n m : Nat, (List.replicate n a).drop m = List.replicate (n - m) a
  | n, 0 => by simp
  | 0, m => by simp
  | n + 1, m + 1 => by
    simp only [List.replicate_succ, List.drop_succ_cons]
    rw [replicate_drop a n m]
    congr 1
    omega

theorem reach_biased_fills : ∀ k : Nat, k ≤ 2048 →
    Relation.ReflTransGen BufStep [] (List.replicate (512 * k) 0)
  | 0, _ => Relation.ReflTransGen.refl
  | k + 1, hk => by
    have ih := reach_biased_fills k (by omega)
    refine Relation.ReflTransGen.tail ih ?_
    have hstep := BufStep.fill (List.replicate (512 * k) 0) (List.replicate 1024 85)
      (by simp only [List.length_replicate, buffer_size]; omega)
      (by simp only [List.length_replicate])
    rw [quantum_noise_biased_chunk] at hstep
    have happ : List.replicate (512 * k) 0 ++ List.replicate 512 0
        = List.replicate (512 * (k + 1)) 0 := by
      rw [← List.replicate_add]
      have h5 : 512 * k + 512 = 512 * (k + 1) := by ring
      rw [h5]
    rwa [happ] at hstep

/-- C3 fails as stated: a reachable interleaving drives the fill level above the
capacity.  Fill with 512-byte debiased chunks until the level is exactly the
capacity, take one byte, then one more worker iteration passes the fill < capacity
check and appends a further 512-byte chunk, reaching capacity + 511. -/
theorem buffer_level_exceeds_capacity :
    ∃ b : List Nat, Relation.ReflTransGen BufStep [] b ∧ buffer_size < b.length := by
  refine ⟨List.replicate (buffer_size - 1) 0 ++ List.replicate 512 0, ?_, ?_⟩
  · have h0 := reach_biased_fills 2048 (by omega)
    have hfull : (512 : Nat) * 2048 = buffer_size := by norm_num [buffer_size]
    rw [hfull] at h0
    have h1 := Relation.ReflTransGen.tail h0
      (BufStep.takeHit (List.replicate buffer_size 0) 1
        (by simp only [List.length_replicate, buffer_size]; omega))
    rw [replicate_drop] at h1
    refine Relation.ReflTransGen.tail h1 ?_
    have hstep := BufStep.fill (List.replicate (buffer_size - 1) 0)
      (List.replicate 1024 85)
      (by simp only [List.length_replicate, buffer_size]; omega)
      (by simp only [List.length_replicate])
    rwa [quantum_noise_biased_chunk] at hstep
  · simp only [List.length_append, List.length_replicate, buffer_size]
    omega

/-- C3 amended: in every reachable state of the entropy buffer the fill level is at
most capacity + 1023.  The worker checks fill < capacity before appending and a
chunk holds at most 1024 bytes (the debiased form of 1024 bytes, or 1024 raw bytes
on the exception path), so the level can overshoot the capacity by up to one chunk
less one byte, but never more. -/
theorem buffer_level_bounded (b : List Nat)
    (h : Relation.ReflTransGen BufStep [] b) :
    b.length ≤ buffer_size + 1023 := by
  induction h with
  | refl => simp
  | tail hsteps hstep ih =>
    cases hstep with
    | fill noisy hlt hn =>
      have hle : (_apply_debiasing noisy).length ≤ noisy.length :=
        apply_debiasing_length_le noisy
      simp only [_generate_quantum_noise, List.length_append]
      omega
    | fillErr chunk hlt hc =>
      simp only [List.length_append]
      omega
    | fillFull hge => exact ih
    | takeHit n hle =>
      simp only [List.length_drop]
      omega
    | takeMiss n hlt => exact ih

theorem buffer_level_bounded_witness :
    Relation.ReflTransGen BufStep [] ([] : List Nat) ∧
      List.length ([] : List Nat) ≤ buffer_size + 1023 :=
  ⟨Relation.ReflTransGen.refl, buffer_level_bounded [] Relation.ReflTransGen.refl⟩

/-- Append on a deque with a maximal length, the collections.deque(maxlen) semantics
used for the monitor histories: the new element goes to the right and, once the
deque holds maxlen elements, the oldest element on the left is discarded. -/
def dequePush {α : Type} (maxlen : Nat) (q : List α) (x : α) : List α :=
  (q ++ [x]).drop (q.length + 1 - maxlen)

/-- Entry appended to generation_history by record_generation (performance_monitor.py
lines 95-101); the wall-clock timestamp stored in the source dict is real time and
stays outside the model.  Float arithmetic is modelled over ℚ. -/
structure GenEvent where
  size_bytes : Nat
  generation_time : ℚ
  throughput_mbps : ℚ
  source : String
  deriving DecidableEq

/-- State of PerformanceMonitor restricted to the fields that record_generation
updates and the claims mention: the three rolling histories, all bounded by
history_size (lines 25-27), and the two global counters of current_metrics (lines
121-122).  Timestamps, per-source statistics and the periodically derived metrics
are outside the claims. -/
structure MonitorState where
  history_size : Nat
  generation_history : List GenEvent
  throughput_history : List ℚ
  latency_history : List ℚ
  total_bytes_generated : Nat
  total_requests : Nat
  deriving DecidableEq

/-- Fresh monitor, PerformanceMonitor.__init__ (lines 17-40): empty histories with
capacity history_size, zeroed counters. -/
def monitorInit (history_size : Nat) : MonitorState :=
  { history_size := history_size, generation_history := [], throughput_history := [],
    latency_history := [], total_bytes_generated := 0, total_requests := 0 }

/-- Throughput computed by record_generation (line 92): (size * 8) / (time * 1e6)
when the duration is positive, else 0. -/
def throughputOf (size_bytes : Nat) (generation_time : ℚ) : ℚ :=
  if 0 < generation_time then (size_bytes * 8 : ℚ) / (generation_time * 1000000) else 0

/-- record_generation (performance_monitor.py lines 83-123) on the modelled state:
the event and the two scalars are appended to their bounded histories and the global
counters grow, unconditionally on the inputs. -/
def record_generation (s : MonitorState) (size_bytes : Nat) (generation_time : ℚ)
    (source : String) : MonitorState :=
  let throughput_mbps := throughputOf size_bytes generation_time
  { s with
    generation_history := dequePush s.history_size s.generation_history
      { size_bytes := size_bytes, generation_time := generation_time,
        throughput_mbps := throughput_mbps, source := source },
    throughput_history := dequePush s.history_size s.throughput_history throughput_mbps,
    latency_history := dequePush s.history_size s.latency_history (generation_time * 1000),
    total_bytes_generated := s.total_bytes_generated + size_bytes,
    total_requests := s.total_requests + 1 }

/-- History event built from one (size, duration, source) insertion. -/
def eventOf (i : Nat × ℚ × String) : GenEvent :=
  { size_bytes := i.1, generation_time := i.2.1,
    throughput_mbps := throughputOf i.1 i.2.1, source := i.2.2 }

/-- Throughput scalar appended for one insertion. -/
def throughputEntry (i : Nat × ℚ × String) : ℚ :=
  throughputOf i.1 i.2.1

/-- Latency scalar appended for one insertion, in milliseconds (line 106). -/
def latencyEntry (i : Nat × ℚ × String) : ℚ :=
  i.2.1 * 1000

/-- A sequence of record_generation calls. -/
def record_all (s : MonitorState) (inserts : List (Nat × ℚ × String)) : MonitorState :=
  inserts.foldl (fun st i => record_generation st i.1 i.2.1 i.2.2) s

theorem dequePush_length {α : Type} (M : Nat) (q : List α) (x : α) :
    (dequePush M q x).length = q.length + 1 - (q.length + 1 - M) := by
  simp [dequePush]

theorem dequePush_getLast {α : Type} (M : Nat) (hM : 0 < M) (q : List α) (x : α) :
    (dequePush M q x).getLast? = some x := by
  unfold dequePush
  rw [List.drop_append_of_le_length (by omega)]
  rw [List.getLast?_concat]

theorem foldl_dequePush {α : Type} (M : Nat) :
    ∀ (ys q : List α), q.length ≤ M →
      ys.foldl (dequePush M) q = (q ++ ys).drop (q.length + ys.length - M)
  | [], q, hq => by
    simp only [List.foldl_nil, List.append_nil, List.length_nil]
    have h0 : q.length + 0 - M = 0 := by omega
    rw [h0, List.drop_zero]
  | y :: ys, q, hq => by
    have hlen : (dequePush M q y).length ≤ M := by
      rw [dequePush_length]
      omega
    have ih := foldl_dequePush M ys (dequePush M q y) hlen
    simp only [List.foldl_cons]
    rw [ih, dequePush_length]
    have hd : dequePush M q y = (q ++ [y]).drop (q.length + 1 - M) := rfl
    rw [hd]
    rw [← List.drop_append_of_le_length
      (by simp only [List.length_append, List.length_cons, List.length_nil]; omega)]
    rw [List.drop_drop, List.append_assoc]
    simp only [List.singleton_append, List.length_cons]
    congr 1
    omega

theorem record_generation_history_size (s : MonitorState) (a : Nat) (t : ℚ)
    (src : String) : (record_generation s a t src).history_size = s.history_size := rfl

theorem record_all_state (s : MonitorState) : ∀ xs : List (Nat × ℚ × String),
    (record_all s xs).generation_history
      = (xs.map eventOf).foldl (dequePush s.history_size) s.generation_history ∧
    (record_all s xs).throughput_history
      = (xs.map throughputEntry).foldl (dequePush s.history_size)
          s.throughput_history ∧
    (record_all s xs).latency_history
      = (xs.map latencyEntry).foldl (dequePush s.history_size)
          s.latency_history
  | [] => by simp [record_all]
  | x :: xs => by
    have ih := record_all_state (record_generation s x.1 x.2.1 x.2.2) xs
    simp only [record_generation_history_size] at ih
    simp only [record_all, List.foldl_cons, List.map_cons] at ih ⊢
    rcases ih with ⟨ih1, ih2, ih3⟩
    exact ⟨ih1, ih2, ih3⟩

/-- C7: starting from a fresh monitor with capacity M, after M + k record_generation
insertions every rolling history equals exactly the last M inserted elements in
insertion order (so the oldest k have been evicted and no window ever exceeds its
capacity), and when the inserted events are pairwise distinct none of the first k
events is still present in the event window. -/
theorem rolling_windows_fifo (M k : Nat) (xs : List (Nat × ℚ × String))
    (hlen : xs.length = M + k) :
    (record_all (monitorInit M) xs).generation_history = (xs.map eventOf).drop k ∧
    (record_all (monitorInit M) xs).generation_history.length ≤ M ∧
    (record_all (monitorInit M) xs).throughput_history
      = (xs.map throughputEntry).drop k ∧
    (record_all (monitorInit M) xs).throughput_history.length ≤ M ∧
    (record_all (monitorInit M) xs).latency_history
      = (xs.map latencyEntry).drop k ∧
    (record_all (monitorInit M) xs).latency_history.length ≤ M ∧
    ((xs.map eventOf).Nodup → ∀ e ∈ (xs.map eventOf).take k,
      e ∉ (record_all (monitorInit M) xs).generation_history) := by
  obtain ⟨h1, h2, h3⟩ := record_all_state (monitorInit M) xs
  have hidx : ∀ {β : Type} (l : List β), l.length = M + k →
      l.foldl (dequePush M) [] = l.drop k := by
    intro β l hl
    rw [foldl_dequePush M l [] (by simp)]
    simp only [List.nil_append, List.length_nil]
    congr 1
    omega
  have hg : (record_all (monitorInit M) xs).generation_history
      = (xs.map eventOf).drop k :=
    h1.trans (hidx (xs.map eventOf) (by simp [hlen]))
  have ht : (record_all (monitorInit M) xs).throughput_history
      = (xs.map throughputEntry).drop k :=
    h2.trans (hidx (xs.map throughputEntry) (by simp [hlen]))
  have hl : (record_all (monitorInit M) xs).latency_history
      = (xs.map latencyEntry).drop k :=
    h3.trans (hidx (xs.map latencyEntry) (by simp [hlen]))
  refine ⟨hg, ?_, ht, ?_, hl, ?_, ?_⟩
  · rw [hg]
    simp only [List.length_drop, List.length_map]
    omega
  · rw [ht]
    simp only [List.length_drop, List.length_map]
    omega
  · rw [hl]
    simp only [List.length_drop, List.length_map]
    omega
  · intro hnd e he hmem
    rw [hg] at hmem
    exact List.disjoint_take_drop hnd (le_refl k) he hmem

theorem rolling_windows_fifo_witness :
    List.length [((1 : Nat), (0 : ℚ), "a"), (2, 0, "b"), (3, 0, "c")] = 2 + 1 ∧
    ((record_all (monitorInit 2)
          [((1 : Nat), (0 : ℚ), "a"), (2, 0, "b"), (3, 0, "c")]).generation_history
        = (List.map eventOf [((1 : Nat), (0 : ℚ), "a"), (2, 0, "b"), (3, 0, "c")]).drop 1 ∧
      (record_all (monitorInit 2)
          [((1 : Nat), (0 : ℚ), "a"), (2, 0, "b"), (3, 0, "c")]).generation_history.length ≤ 2 ∧
      (record_all (monitorInit 2)
          [((1 : Nat), (0 : ℚ), "a"), (2, 0, "b"), (3, 0, "c")]).throughput_history
        = (List.map throughputEntry
            [((1 : Nat), (0 : ℚ), "a"), (2, 0, "b"), (3, 0, "c")]).drop 1 ∧
      (record_all (monitorInit 2)
          [((1 : Nat), (0 : ℚ), "a"), (2, 0, "b"), (3, 0, "c")]).throughput_history.length ≤ 2 ∧
      (record_all (monitorInit 2)
          [((1 : Nat), (0 : ℚ), "a"), (2, 0, "b"), (3, 0, "c")]).latency_history
        = (List.map latencyEntry
            [((1 : Nat), (0 : ℚ), "a"), (2, 0, "b"), (3, 0, "c")]).drop 1 ∧
      (record_all (monitorInit 2)
          [((1 : Nat), (0 : ℚ), "a"), (2, 0, "b"), (3, 0, "c")]).latency_history.length ≤ 2 ∧
      ((List.map eventOf [((1 : Nat), (0 : ℚ), "a"), (2, 0, "b"), (3, 0, "c")]).Nodup →
        ∀ e ∈ (List.map eventOf [((1 : Nat), (0 : ℚ), "a"), (2, 0, "b"), (3, 0, "c")]).take 1,
          e ∉ (record_all (monitorInit 2)
            [((1 : Nat), (0 : ℚ), "a"), (2, 0, "b"), (3, 0, "c")]).generation_history)) :=
  ⟨by decide, rolling_windows_fifo 2 1 [(1, 0, "a"), (2, 0, "b"), (3, 0, "c")] (by decide)⟩

/-- C9: record_generation accepts every input — with a non-positive duration the
event is still counted in both global counters and still appended to every rolling
history (it becomes the last element of each), and its throughput is recorded as 0. -/
theorem record_generation_never_rejects (s : MonitorState) (size_bytes : Nat) (t : ℚ)
    (source : String) (ht : t ≤ 0) (hM : 0 < s.history_size) :
    (record_generation s size_bytes t source).total_requests = s.total_requests + 1 ∧
    (record_generation s size_bytes t source).total_bytes_generated
      = s.total_bytes_generated + size_bytes ∧
    (record_generation s size_bytes t source).generation_history.getLast?
      = some { size_bytes := size_bytes, generation_time := t, throughput_mbps := 0,
               source := source } ∧
    (record_generation s size_bytes t source).throughput_history.getLast? = some 0 ∧
    (record_generation s size_bytes t source).latency_history.getLast? = some (t * 1000) := by
  have htp : throughputOf size_bytes t = 0 := by
    rw [throughputOf, if_neg (not_lt.mpr ht)]
  refine ⟨rfl, rfl, ?_, ?_, ?_⟩
  · show (dequePush s.history_size s.generation_history
        { size_bytes := size_bytes, generation_time := t,
          throughput_mbps := throughputOf size_bytes t, source := source }).getLast? = _
    rw [dequePush_getLast s.history_size hM, htp]
  · show (dequePush s.history_size s.throughput_history
        (throughputOf size_bytes t)).getLast? = _
    rw [dequePush_getLast s.history_size hM, htp]
  · show (dequePush s.history_size s.latency_history (t * 1000)).getLast? = _
    rw [dequePush_getLast s.history_size hM]

theorem record_generation_never_rejects_witness :
    (-1 : ℚ) ≤ 0 ∧ 0 < (monitorInit 2).history_size ∧
    ((record_generation (monitorInit 2) 4 (-1) "x").total_requests
        = (monitorInit 2).total_requests + 1 ∧
      (record_generation (monitorInit 2) 4 (-1) "x").total_bytes_generated
        = (monitorInit 2).total_bytes_generated + 4 ∧
      (record_generation (monitorInit 2) 4 (-1) "x").generation_history.getLast?
        = some { size_bytes := 4, generation_time := -1, throughput_mbps := 0,
                 source := "x" } ∧
      (record_generation (monitorInit 2) 4 (-1) "x").throughput_history.getLast? = some 0 ∧
      (record_generation (monitorInit 2) 4 (-1) "x").latency_history.getLast?
        = some ((-1) * 1000)) :=
  ⟨by norm_num, by norm_num [monitorInit],
   record_generation_never_rejects (monitorInit 2) 4 (-1) "x" (by norm_num)
     (by norm_num [monitorInit])⟩

/-- Outcome of one ValidationSuite sub-test (quantum_rng.py lines 69-200): every
sub-test returns a dict in both of its branches — the normal record, whose passed
field is read by test.get(passed, False), or the error-marker dict built in its
except branch, which has no passed key. -/
inductive SubTestResult where
  | ok (passed : Bool) : SubTestResult
  | err : SubTestResult
  deriving DecidableEq

/-- isinstance(test, dict) (quantum_rng.py lines 54-55): true for both outcomes,
error markers included, because each sub-test branch returns a dict. -/
def isDict : SubTestResult → Bool
  | SubTestResult.ok _ => true
  | SubTestResult.err => true

/-- test.get(passed, False) (line 54): the stored flag, or False when the key is
absent, as it is on an error marker. -/
def getPassed : SubTestResult → Bool
  | SubTestResult.ok passed => passed
  | SubTestResult.err => false

/-- passed_tests (lines 53-54): sub-tests that are dicts and whose passed flag is
truthy. -/
def passedCount (ts : List SubTestResult) : Nat :=
  (ts.filter (fun t => isDict t && getPassed t)).length

/-- total_tests (line 55): sub-tests that are dicts. -/
def totalCount (ts : List SubTestResult) : Nat :=
  (ts.filter isDict).length

/-- Aggregate block overall_quality of validate_randomness (quantum_rng.py lines
57-62).  The float products total * 0.8 and total * 0.6 are exact at the only
reachable total (5), so ℚ arithmetic models them faithfully. -/
structure OverallQuality where
  passed_tests : Nat
  total_tests : Nat
  quality_score : ℚ
  assessment : String
  deriving DecidableEq

def overall_quality (ts : List SubTestResult) : OverallQuality :=
  { passed_tests := passedCount ts, total_tests := totalCount ts,
    quality_score :=
      if 0 < totalCount ts then (passedCount ts : ℚ) / (totalCount ts : ℚ) else 0,
    assessment :=
      if (totalCount ts : ℚ) * (8 / 10) ≤ (passedCount ts : ℚ) then "GOOD"
      else if (totalCount ts : ℚ) * (6 / 10) ≤ (passedCount ts : ℚ) then "FAIR"
      else "POOR" }

/-- Overall assessment of validate_randomness (quantum_rng.py lines 28-66) as a
function of the five sub-test outcomes; the float statistics inside each sub-test
are abstracted into its outcome. -/
def validate_randomness (t1 t2 t3 t4 t5 : SubTestResult) : OverallQuality :=
  overall_quality [t1, t2, t3, t4, t5]

/-- Aggregate score exactly as claim C2 words it: passed sub-tests divided by the
number of sub-tests that did not report an error marker. -/
def spec_quality_score (ts : List SubTestResult) : ℚ :=
  let valid := ts.filter (fun t => match t with | SubTestResult.err => false | SubTestResult.ok _ => true)
  if 0 < valid.length then ((ts.filter (fun t => getPassed t)).length : ℚ) / (valid.length : ℚ)
  else 0

theorem isDict_eq_true (t : SubTestResult) : isDict t = true := by
  cases t <;> rfl

/-- C2 fails on the code: with four passing sub-tests and one errored sub-test the
aggregate divides by 5 — the error marker is itself a dict and passes the
isinstance(test, dict) filter — whereas the claim's denominator, the sub-tests that
did not error, would be 4.  The code computes 4/5, the claim's formula gives 1. -/
theorem quality_score_counts_errored_subtests :
    (validate_randomness (SubTestResult.ok true) (SubTestResult.ok true)
        (SubTestResult.ok true) (SubTestResult.ok true) SubTestResult.err).quality_score
      = 4 / 5 ∧
    spec_quality_score [SubTestResult.ok true, SubTestResult.ok true,
        SubTestResult.ok true, SubTestResult.ok true, SubTestResult.err] = 1 ∧
    (validate_randomness (SubTestResult.ok true) (SubTestResult.ok true)
        (SubTestResult.ok true) (SubTestResult.ok true) SubTestResult.err).quality_score
      ≠ spec_quality_score [SubTestResult.ok true, SubTestResult.ok true,
          SubTestResult.ok true, SubTestResult.ok true, SubTestResult.err] := by
  have h1 : (validate_randomness (SubTestResult.ok true) (SubTestResult.ok true)
      (SubTestResult.ok true) (SubTestResult.ok true) SubTestResult.err).quality_score
      = 4 / 5 := by
    norm_num [validate_randomness, overall_quality, passedCount, totalCount, isDict,
      getPassed]
  have h2 : spec_quality_score [SubTestResult.ok true, SubTestResult.ok true,
      SubTestResult.ok true, SubTestResult.ok true, SubTestResult.err] = 1 := by
    norm_num [spec_quality_score, getPassed]
  refine ⟨h1, h2, ?_⟩
  rw [h1, h2]
  norm_num

/-- C2 amended: the aggregate of validate_randomness divides the passed count by the
count of all five sub-tests — errored sub-tests are dicts and still count in the
denominator — and the label is GOOD exactly when the score is at least 0.8, FAIR
exactly when it is at least 0.6 but below 0.8, and POOR exactly when it is below
0.6. -/
theorem validate_randomness_aggregate (t1 t2 t3 t4 t5 : SubTestResult) :
    (validate_randomness t1 t2 t3 t4 t5).total_tests = 5 ∧
    (validate_randomness t1 t2 t3 t4 t5).quality_score
      = ((validate_randomness t1 t2 t3 t4 t5).passed_tests : ℚ) / 5 ∧
    ((validate_randomness t1 t2 t3 t4 t5).assessment = "GOOD"
      ↔ 4 / 5 ≤ (validate_randomness t1 t2 t3 t4 t5).quality_score) ∧
    ((validate_randomness t1 t2 t3 t4 t5).assessment = "FAIR"
      ↔ 3 / 5 ≤ (validate_randomness t1 t2 t3 t4 t5).quality_score ∧
          (validate_randomness t1 t2 t3 t4 t5).quality_score < 4 / 5) ∧
    ((validate_randomness t1 t2 t3 t4 t5).assessment = "POOR"
      ↔ (validate_randomness t1 t2 t3 t4 t5).quality_score < 3 / 5) := by
  have htotal : totalCount [t1, t2, t3, t4, t5] = 5 := by
    simp [totalCount, isDict_eq_true]
  have hpass : (validate_randomness t1 t2 t3 t4 t5).passed_tests
      = passedCount [t1, t2, t3, t4, t5] := rfl
  have hscore : (validate_randomness t1 t2 t3 t4 t5).quality_score
      = (passedCount [t1, t2, t3, t4, t5] : ℚ) / 5 := by
    simp only [validate_randomness, overall_quality, htotal]
    norm_num
  have hassess : (validate_randomness t1 t2 t3 t4 t5).assessment
      = if (4 : ℚ) ≤ (passedCount [t1, t2, t3, t4, t5] : ℚ) then "GOOD"
        else if (3 : ℚ) ≤ (passedCount [t1, t2, t3, t4, t5] : ℚ) then "FAIR"
        else "POOR" := by
    simp only [validate_randomness, overall_quality, htotal]
    norm_num
  have htot5 : (validate_randomness t1 t2 t3 t4 t5).total_tests = 5 := by
    simp only [validate_randomness, overall_quality, htotal]
  have hiff1 : (4 : ℚ) / 5 ≤ (passedCount [t1, t2, t3, t4, t5] : ℚ) / 5
      ↔ (4 : ℚ) ≤ (passedCount [t1, t2, t3, t4, t5] : ℚ) := by
    constructor <;> intro h <;> linarith
  have hiff2 : (3 : ℚ) / 5 ≤ (passedCount [t1, t2, t3, t4, t5] : ℚ) / 5
      ↔ (3 : ℚ) ≤ (passedCount [t1, t2, t3, t4, t5] : ℚ) := by
    constructor <;> intro h <;> linarith
  have hiff3 : (passedCount [t1, t2, t3, t4, t5] : ℚ) / 5 < 4 / 5
      ↔ (passedCount [t1, t2, t3, t4, t5] : ℚ) < 4 := by
    constructor <;> intro h <;> linarith
  have hiff4 : (passedCount [t1, t2, t3, t4, t5] : ℚ) / 5 < 3 / 5
      ↔ (passedCount [t1, t2, t3, t4, t5] : ℚ) < 3 := by
    constructor <;> intro h <;> linarith
  rw [htot5, hscore, hassess, hpass]
  refine ⟨rfl, rfl, ?_, ?_, ?_⟩
  · rw [hiff1]
    split_ifs with h1 h2
    · exact iff_of_true rfl h1
    · exact iff_of_false (by decide) h1
    · exact iff_of_false (by decide) h1
  · rw [hiff2, hiff3]
    split_ifs with h1 h2
    · exact iff_of_false (by decide) (fun hc => (not_le.mpr hc.2) h1)
    · exact iff_of_true rfl ⟨h2, not_le.mp h1⟩
    · exact iff_of_false (by decide) (fun hc => h2 hc.1)
  · rw [hiff4]
    split_ifs with h1 h2
    · exact iff_of_false (by decide) (by intro hc; linarith)
    · exact iff_of_false (by decide) (by intro hc; linarith)
    · exact iff_of_true rfl (not_le.mp h2)

/-- Result values of the numpy float expressions inside get_quality_metrics: a
finite value (modelled over ℚ), the IEEE nan produced by the 0/0 divisions on an
empty input, or an infinity (x/0 with x ≠ 0 — never reachable here, because every
bincount entry is 0 whenever the data length is 0).  Numpy reports these divisions
with a runtime warning and continues; it does not raise. -/
inductive NpVal where
  | nan : NpVal
  | inf : NpVal
  | val (q : ℚ) : NpVal
  deriving DecidableEq

/-- Numpy true division: a finite quotient, nan for 0/0, an infinity for x/0. -/
def npDiv (a b : ℚ) : NpVal :=
  if b = 0 then (if a = 0 then NpVal.nan else NpVal.inf) else NpVal.val (a / b)

/-- The comparison p > 0 on numpy values: false for nan (IEEE), true for +inf. -/
def npPos : NpVal → Bool
  | NpVal.nan => false
  | NpVal.inf => true
  | NpVal.val q => decide (0 < q)

/-- Product on numpy values; nan absorbs; infinities are collapsed to inf, their
sign being irrelevant on the reachable paths, where no infinity arises. -/
def npMul : NpVal → NpVal → NpVal
  | NpVal.val a, NpVal.val b => NpVal.val (a * b)
  | NpVal.nan, _ => NpVal.nan
  | _, NpVal.nan => NpVal.nan
  | _, _ => NpVal.inf

def npAdd : NpVal → NpVal → NpVal
  | NpVal.val a, NpVal.val b => NpVal.val (a + b)
  | NpVal.nan, _ => NpVal.nan
  | _, NpVal.nan => NpVal.nan
  | _, _ => NpVal.inf

def npSub : NpVal → NpVal → NpVal
  | NpVal.val a, NpVal.val b => NpVal.val (a - b)
  | NpVal.nan, _ => NpVal.nan
  | _, NpVal.nan => NpVal.nan
  | _, _ => NpVal.inf

def npNeg : NpVal → NpVal
  | NpVal.val a => NpVal.val (-a)
  | NpVal.nan => NpVal.nan
  | NpVal.inf => NpVal.inf

def npAbs : NpVal → NpVal
  | NpVal.val a => NpVal.val |a|
  | NpVal.nan => NpVal.nan
  | NpVal.inf => NpVal.inf

/-- np.log2 lifted to numpy values; the finite case is abstracted by the parameter
f, since a float logarithm has no exact rational value — it is never applied on the
paths claim C10 touches. -/
def npLog2 (f : ℚ → ℚ) : NpVal → NpVal
  | NpVal.val a => NpVal.val (f a)
  | NpVal.nan => NpVal.nan
  | NpVal.inf => NpVal.inf

/-- np.bincount(data_array, minlength=256) (quantum_rng.py line 206): number of
occurrences of each byte value 0..255. -/
def bincount256 (data : List Nat) : List Nat :=
  (List.range 256).map (fun v => (data.filter (fun b => b = v)).length)

/-- Result dict of get_quality_metrics; the field ones_rate models the dict key
named ones_ratio in the source. -/
structure QualityMetrics where
  entropy : NpVal
  ones_rate : NpVal
  uniformity_score : NpVal
  deriving DecidableEq

/-- get_quality_metrics (quantum_rng.py lines 202-223), try body: probabilities are
bincount divided by the data length, the positive ones contribute p * log2 p to the
entropy sum; ones_ratio is sum(bits) / len(bits); uniformity_score is
1.0 - abs(ones_ratio - 0.5) * 2.  A division by a zero length yields nan under a
numpy warning, not an exception, and the nan propagates. -/
def get_quality_metrics (f : ℚ → ℚ) (data : List Nat) : QualityMetrics :=
  let counts := bincount256 data
  let probabilities := counts.map (fun c => npDiv (c : ℚ) (data.length : ℚ))
  let positive := probabilities.filter npPos
  let entropy :=
    npNeg ((positive.map (fun p => npMul p (npLog2 f p))).foldl npAdd (NpVal.val 0))
  let bits := unpackbits data
  let ones_rate := npDiv (bits.sum : ℚ) (bits.length : ℚ)
  { entropy := entropy,
    ones_rate := ones_rate,
    uniformity_score :=
      npSub (NpVal.val 1)
        (npMul (npAbs (npSub ones_rate (NpVal.val (1 / 2)))) (NpVal.val 2)) }

/-- The except fallback of get_quality_metrics (quantum_rng.py line 223). -/
def quality_metrics_fallback : QualityMetrics :=
  { entropy := NpVal.val 0, ones_rate := NpVal.val (1 / 2),
    uniformity_score := NpVal.val 0 }

/-- C10 fails on the code: on the empty byte string the 0/0 divisions produce nan
under a numpy runtime warning instead of raising, so the except branch is never
taken and the error-fallback dict is not what the call returns. -/
theorem quick_metrics_empty_not_fallback :
    get_quality_metrics (fun q => q) [] ≠ quality_metrics_fallback := by
  decide

/-- C10 amended: on the empty byte string get_quality_metrics does not raise — the
0/0 divisions produce nan with a warning — and the call returns entropy 0.0 (the
empty entropy sum), ones_ratio nan, uniformity_score nan; the error fallback
(entropy 0.0, ones_ratio 0.5, uniformity_score 0.0) is not returned. -/
theorem quick_metrics_empty :
    get_quality_metrics (fun q => q) []
      = { entropy := NpVal.val 0, ones_rate := NpVal.nan,
          uniformity_score := NpVal.nan } := by
  decide

end QRNG
